import Mathlib

/-!
Verification of the emails-forwarder mailbox-watching core.

The definitions below are a shallow embedding of the TypeScript sources:
`EmailListener` (src/src/email-listener.ts) and the orchestration / forwarding
layer (index.ts versions kept with the repository).  Pure functions are
translated directly; the asynchronous handlers are modelled as pure functions
producing the sequence of side-effecting actions they perform, and the
reconnection machinery - whose current implementation file is not among the
repository's files, only its callers - is modelled from the spec where noted.
-/

/-- Payload of the IMAP "exists" notification, as in email-listener.ts:
the mailbox path, the new message count, and the previous count. -/
structure ExistsData where
  path : String
  count : Nat
  prevCount : Nat
deriving DecidableEq, Repr

/-- The loop body of `fromExistsDataToNewMails`: starting at `mailId`, push
each id while `mailId <= data.count` holds, incrementing by one. -/
def newMailsLoop (mailId : Nat) (count : Nat) : List Nat :=
  if mailId ≤ count then mailId :: newMailsLoop (mailId + 1) count else []
termination_by count + 1 - mailId
decreasing_by omega

/-- Embedding of `EmailListener.fromExistsDataToNewMails` (email-listener.ts):
`for (let mailId = data.prevCount + 1; mailId <= data.count; mailId++) newMails.push(mailId)`. -/
def fromExistsDataToNewMails (data : ExistsData) : List Nat :=
  newMailsLoop (data.prevCount + 1) data.count

theorem newMailsLoop_eq_range' :
    ∀ (k s count : Nat), count + 1 - s = k → newMailsLoop s count = List.range' s k := by
  intro k
  induction k with
  | zero =>
    intro s count h
    rw [newMailsLoop]
    simp only [List.range']
    have : ¬ s ≤ count := by omega
    simp [this]
  | succ k ih =>
    intro s count h
    rw [newMailsLoop]
    have hs : s ≤ count := by omega
    simp only [hs, if_true]
    rw [List.range'_succ, ih (s + 1) count (by omega)]

/-- C1: for every count snapshot the New-Item Resolver returns exactly the
ascending sequence `prevCount+1 .. count`; when `count <= prevCount` (including
a count regression) it returns the empty sequence; it is total (never an
error) and its output is strictly ascending (never a negative range). -/
theorem fromExistsDataToNewMails_spec :
    ∀ data : ExistsData,
      fromExistsDataToNewMails data
          = List.range' (data.prevCount + 1) (data.count - data.prevCount)
        ∧ (fromExistsDataToNewMails data).Pairwise (· < ·)
        ∧ (data.count ≤ data.prevCount → fromExistsDataToNewMails data = []) := by
  intro data
  have h : fromExistsDataToNewMails data
      = List.range' (data.prevCount + 1) (data.count - data.prevCount) :=
    newMailsLoop_eq_range' _ _ _ (by omega)
  refine ⟨h, ?_, ?_⟩
  · rw [h]
    exact List.pairwise_lt_range' _ _
  · intro hle
    rw [h]
    have h0 : data.count - data.prevCount = 0 := by omega
    rw [h0]
    rfl

/-- One side-effecting step of the "exists" handler of email-listener.ts:
the download of one message, the parse of its content, or the emission of
the `onMailReceive` event for it. -/
inductive MailAction where
  | download (mailId : Nat)
  | parse (mailId : Nat)
  | emit (mailId : Nat)
deriving DecidableEq, Repr

/-- The message identifier an action of the handler acts on. -/
def MailAction.mailId : MailAction → Nat
  | .download i => i
  | .parse i => i
  | .emit i => i

/-- The three awaited steps one loop iteration of the handler performs for one
mail id, in their program order: download, then parse, then emit. -/
def actionTriple (mailId : Nat) : List MailAction :=
  [MailAction.download mailId, MailAction.parse mailId, MailAction.emit mailId]

/-- Embedding of the "exists" handler attached in `connect()`
(email-listener.ts): resolve the new mail ids, then for each id in order
await the download, await the parse and emit the event, before the next
iteration starts.  The handler body is sequential (each iteration awaits both
steps before the loop advances), so its effects are this flat trace. -/
def onExistsTrace (data : ExistsData) : List MailAction :=
  (fromExistsDataToNewMails data).flatMap actionTriple

/-- The mail ids of the `onMailReceive` events of a trace, in emission order. -/
def emittedIds (trace : List MailAction) : List Nat :=
  trace.filterMap fun a =>
    match a with
    | .emit i => some i
    | _ => none

theorem emittedIds_flatMap_triple (l : List Nat) :
    emittedIds (l.flatMap actionTriple) = l := by
  induction l with
  | nil => rfl
  | cons i rest ih =>
    simp only [List.flatMap_cons, actionTriple, emittedIds, List.filterMap_append]
    simp only [emittedIds] at ih
    rw [ih]
    rfl

theorem map_mailId_flatMap_triple (l : List Nat) :
    (l.flatMap actionTriple).map MailAction.mailId
      = l.flatMap fun i => [i, i, i] := by
  induction l with
  | nil => rfl
  | cons i rest ih =>
    simp only [List.flatMap_cons, List.map_append, ih]
    rfl

theorem pairwise_le_flatMap_triple (l : List Nat) (h : l.Pairwise (· < ·)) :
    (l.flatMap fun i => [i, i, i]).Pairwise (· ≤ ·) := by
  rw [List.pairwise_flatMap]
  constructor
  · intro a _
    simp
  · refine h.imp_of_mem ?_
    intro a b _ _ hab
    intro x hx y hy
    simp only [List.mem_cons, List.mem_singleton, List.not_mem_nil, or_false] at hx hy
    rcases hx with rfl | rfl | rfl <;> rcases hy with rfl | rfl | rfl <;> omega

/-- C2: within one watcher the exists handler processes the resolved ids
sequentially: the trace of one notification is, per id in ascending order,
download then parse then emit, with every action on a smaller id preceding
every action on a larger id (so the fetch-and-parse of id n completes before
the fetch of id n+1 begins); the emitted events are exactly the resolved ids
in strictly ascending order; and a change from count 10 to 13 emits the
events for 11, 12, 13 in that order. -/
theorem onExists_sequential_ordering :
    (∀ data : ExistsData,
        onExistsTrace data = (fromExistsDataToNewMails data).flatMap actionTriple
          ∧ emittedIds (onExistsTrace data) = fromExistsDataToNewMails data
          ∧ (emittedIds (onExistsTrace data)).Pairwise (· < ·)
          ∧ ((onExistsTrace data).map MailAction.mailId).Pairwise (· ≤ ·))
      ∧ emittedIds (onExistsTrace ⟨"INBOX", 13, 10⟩) = [11, 12, 13] := by
  have hrange : ∀ data : ExistsData,
      fromExistsDataToNewMails data
        = List.range' (data.prevCount + 1) (data.count - data.prevCount) :=
    fun data => newMailsLoop_eq_range' _ _ _ (by omega)
  have hpair : ∀ data : ExistsData, (fromExistsDataToNewMails data).Pairwise (· < ·) := by
    intro data
    rw [hrange data]
    exact List.pairwise_lt_range' _ _
  constructor
  · intro data
    refine ⟨rfl, emittedIds_flatMap_triple _, ?_, ?_⟩
    · rw [onExistsTrace, emittedIds_flatMap_triple]
      exact hpair data
    · rw [onExistsTrace, map_mailId_flatMap_triple]
      exact pairwise_le_flatMap_triple _ (hpair data)
  · rw [onExistsTrace, emittedIds_flatMap_triple, hrange]
    rfl

/-- Modelled from the spec: the Reconnection Controller's `RetryBudget` (§4.3).
The email-listener version implementing the controller is not among the
repository's files (only its callers, which subscribe to its events and call
`start()`, are), so the budget is taken from the spec's words.  Durations are
in milliseconds. -/
structure RetryBudget where
  delay : Nat
  increment : Nat
  ceiling : Nat
deriving DecidableEq, Repr

/-- Modelled from the spec: the design values of the backoff policy - initial
delay 0, increment 10 seconds, ceiling 5 minutes. -/
def initialRetryBudget : RetryBudget :=
  { delay := 0, increment := 10000, ceiling := 300000 }

/-- Modelled from the spec: rule 3 of §4.3 - after a failed attempt the delay
for the next attempt grows by `increment`, capped at `ceiling`. -/
def escalate (b : RetryBudget) : RetryBudget :=
  { b with delay := min (b.delay + b.increment) b.ceiling }

/-- Modelled from the spec: rule 4 of §4.3 - a fully successful reconnect
(connect and mailbox-open both succeed) resets the delay to zero. -/
def resetDelay (b : RetryBudget) : RetryBudget :=
  { b with delay := 0 }

/-- Outcome of one reconnect attempt of the controller. -/
inductive ReconnectOutcome where
  | failedAttempt
  | fullSuccess
deriving DecidableEq, Repr

/-- One transition of the retry budget on the outcome of an attempt. -/
def stepBudget (b : RetryBudget) : ReconnectOutcome → RetryBudget
  | .failedAttempt => escalate b
  | .fullSuccess => resetDelay b

/-- The retry budget a watcher holds after a sequence of attempt outcomes,
starting from the initial budget. -/
def runBudget (outcomes : List ReconnectOutcome) : RetryBudget :=
  outcomes.foldl stepBudget initialRetryBudget

/-- The increment and ceiling are fixed for the life of a controller and the
delay stays within the ceiling. -/
def BudgetInv (b : RetryBudget) : Prop :=
  b.increment = 10000 ∧ b.ceiling = 300000 ∧ b.delay ≤ 300000

theorem budgetInv_step (b : RetryBudget) (h : BudgetInv b) (o : ReconnectOutcome) :
    BudgetInv (stepBudget b o) := by
  obtain ⟨hi, hc, hd⟩ := h
  cases o with
  | failedAttempt => exact ⟨hi, hc, by simp [stepBudget, escalate, hc]⟩
  | fullSuccess => exact ⟨hi, hc, by simp [stepBudget, resetDelay]⟩

theorem budgetInv_foldl :
    ∀ (l : List ReconnectOutcome) (b : RetryBudget), BudgetInv b →
      BudgetInv (l.foldl stepBudget b) := by
  intro l
  induction l with
  | nil => intro b h; exact h
  | cons o rest ih => intro b h; exact ih _ (budgetInv_step b h o)

theorem runBudget_inv (outcomes : List ReconnectOutcome) :
    BudgetInv (runBudget outcomes) :=
  budgetInv_foldl outcomes initialRetryBudget ⟨rfl, rfl, by simp [initialRetryBudget]⟩

/-- C3: the retry delay starts at 0; at every reachable budget it never
exceeds the 5-minute ceiling; a further failed attempt never decreases it;
each failed attempt raises it by 10 seconds up to the ceiling; and a fully
successful reconnect resets it to 0. -/
theorem runBudget_backoff_spec :
    initialRetryBudget.delay = 0
      ∧ (∀ outcomes, (runBudget outcomes).delay ≤ 300000)
      ∧ (∀ outcomes, (runBudget outcomes).delay
          ≤ (runBudget (outcomes ++ [ReconnectOutcome.failedAttempt])).delay)
      ∧ (∀ outcomes, (runBudget (outcomes ++ [ReconnectOutcome.failedAttempt])).delay
          = min ((runBudget outcomes).delay + 10000) 300000)
      ∧ (∀ outcomes, (runBudget (outcomes ++ [ReconnectOutcome.fullSuccess])).delay = 0) := by
  have happ : ∀ (outcomes : List ReconnectOutcome) (o : ReconnectOutcome),
      runBudget (outcomes ++ [o]) = stepBudget (runBudget outcomes) o := by
    intro outcomes o
    simp [runBudget, List.foldl_concat]
  refine ⟨rfl, ?_, ?_, ?_, ?_⟩
  · intro outcomes
    exact (runBudget_inv outcomes).2.2
  · intro outcomes
    obtain ⟨hi, hc, hd⟩ := runBudget_inv outcomes
    rw [happ]
    simp only [stepBudget, escalate, hi, hc]
    omega
  · intro outcomes
    obtain ⟨hi, hc, _⟩ := runBudget_inv outcomes
    rw [happ]
    simp [stepBudget, escalate, hi, hc]
  · intro outcomes
    rw [happ]
    rfl

/-- Modelled from the spec: the reconnect state one watcher owns - the
boolean ReconnectGuard ("currently reconnecting") and the number of reconnect
sequences currently in progress.  The email-listener version implementing the
guard is not among the repository's files, so the machine follows §4.3. -/
structure ReconnectState where
  reconnecting : Bool
  inProgress : Nat
deriving DecidableEq, Repr

/-- A watcher starts with the guard clear and no reconnect sequence running. -/
def initialReconnectState : ReconnectState :=
  { reconnecting := false, inProgress := 0 }

/-- Modelled from the spec: rule 1 of §4.3 - `reconnect()` is a no-op when the
guard flag is already set; otherwise it sets the guard and begins exactly one
reconnect sequence. -/
def reconnect (s : ReconnectState) : ReconnectState :=
  if s.reconnecting then s
  else { reconnecting := true, inProgress := s.inProgress + 1 }

/-- Notifications driving the guard: closed and error both invoke
`reconnect()`; a fully successful `start()` ends the running sequence and
clears the guard (rule 4 of §4.3). -/
inductive GuardEvent where
  | closed
  | errored
  | startSucceeded
deriving DecidableEq, Repr

/-- One transition of the watcher's reconnect state on a notification. -/
def stepGuard (s : ReconnectState) : GuardEvent → ReconnectState
  | .closed => reconnect s
  | .errored => reconnect s
  | .startSucceeded => { reconnecting := false, inProgress := s.inProgress - 1 }

/-- The reconnect state after a sequence of notifications, from the initial
state. -/
def runGuard (events : List GuardEvent) : ReconnectState :=
  events.foldl stepGuard initialReconnectState

/-- A sequence is in progress exactly while the guard is set. -/
def GuardInv (s : ReconnectState) : Prop :=
  s.inProgress = if s.reconnecting then 1 else 0

theorem guardInv_step (s : ReconnectState) (h : GuardInv s) (e : GuardEvent) :
    GuardInv (stepGuard s e) := by
  cases e with
  | closed =>
    simp only [stepGuard, reconnect]
    by_cases hr : s.reconnecting <;> simp_all [GuardInv]
  | errored =>
    simp only [stepGuard, reconnect]
    by_cases hr : s.reconnecting <;> simp_all [GuardInv]
  | startSucceeded =>
    by_cases hr : s.reconnecting <;> simp_all [GuardInv, stepGuard]

theorem guardInv_foldl :
    ∀ (l : List GuardEvent) (s : ReconnectState), GuardInv s →
      GuardInv (l.foldl stepGuard s) := by
  intro l
  induction l with
  | nil => intro s h; exact h
  | cons e rest ih => intro s h; exact ih _ (guardInv_step s h e)

theorem runGuard_inv (events : List GuardEvent) : GuardInv (runGuard events) :=
  guardInv_foldl events initialReconnectState (by simp [GuardInv, initialReconnectState])

/-- C4: at every reachable state of a watcher at most one reconnect sequence
is in progress; `reconnect()` is a no-op when the guard is already set (so a
second invocation never starts a second sequence); and two rapid successive
closed or error notifications leave exactly one sequence in progress, the
second invocation changing nothing. -/
theorem reconnect_guard_spec :
    (∀ s : ReconnectState, s.reconnecting = true → reconnect s = s)
      ∧ (∀ s : ReconnectState, reconnect (reconnect s) = reconnect s)
      ∧ (∀ events, (runGuard events).inProgress ≤ 1)
      ∧ (∀ events e₁ e₂, e₁ ≠ GuardEvent.startSucceeded → e₂ ≠ GuardEvent.startSucceeded →
          runGuard (events ++ [e₁, e₂]) = runGuard (events ++ [e₁])
            ∧ (runGuard (events ++ [e₁, e₂])).inProgress = 1) := by
  have hreconnect_set : ∀ s : ReconnectState, (reconnect s).reconnecting = true := by
    intro s
    by_cases hr : s.reconnecting <;> simp [reconnect, hr]
  have hnoop : ∀ s : ReconnectState, s.reconnecting = true → reconnect s = s := by
    intro s hr
    simp [reconnect, hr]
  refine ⟨hnoop, ?_, ?_, ?_⟩
  · intro s
    exact hnoop _ (hreconnect_set s)
  · intro events
    have h := runGuard_inv events
    rw [GuardInv] at h
    by_cases hr : (runGuard events).reconnecting <;> simp_all
  · intro events e₁ e₂ h₁ h₂
    have happ₁ : runGuard (events ++ [e₁]) = stepGuard (runGuard events) e₁ := by
      simp [runGuard, List.foldl_append]
    have happ₂ : runGuard (events ++ [e₁, e₂])
        = stepGuard (stepGuard (runGuard events) e₁) e₂ := by
      simp [runGuard, List.foldl_append]
    have hstep₁ : stepGuard (runGuard events) e₁ = reconnect (runGuard events) := by
      cases e₁ <;> simp_all [stepGuard]
    have hstep₂ : ∀ t : ReconnectState, stepGuard t e₂ = reconnect t := by
      intro t
      cases e₂ <;> simp_all [stepGuard]
    have heq : runGuard (events ++ [e₁, e₂]) = runGuard (events ++ [e₁]) := by
      rw [happ₁, happ₂, hstep₁, hstep₂]
      exact hnoop _ (hreconnect_set _)
    refine ⟨heq, ?_⟩
    have hinv := runGuard_inv (events ++ [e₁])
    rw [GuardInv] at hinv
    have hguard : (runGuard (events ++ [e₁])).reconnecting = true := by
      rw [happ₁, hstep₁]
      exact hreconnect_set _
    rw [heq, hinv, hguard]
    rfl

/-- What the caller of `start()` observes once the call settles: a running
watcher, or a watcher that has entered the reconnect loop. -/
inductive WatcherPhase where
  | running
  | reconnecting
deriving DecidableEq, Repr

/-- Modelled from the spec: `start()` of §4.2 - establish the connection,
then open the mailbox read-only; any error from either step is handled by
deferring to the Reconnection Controller, and is never rethrown to the
caller.  The email-listener version implementing `start()` is not among the
repository's files (only callers awaiting `emailListener.start()` are), so the
function follows the spec's failure semantics.  The two arguments are the
outcomes of the session's fallible connect and mailbox-open operations. -/
def startWatcher (connectResult : Except String Unit)
    (openResult : Except String Unit) : Except String WatcherPhase :=
  match connectResult with
  | .error _ => .ok .reconnecting
  | .ok _ =>
    match openResult with
    | .error _ => .ok .reconnecting
    | .ok _ => .ok .running

/-- C5: no error of connect or mailbox-open propagates out of `start()`: for
every pair of outcomes the caller gets a value, never an error - a running
watcher when both steps succeed, and otherwise a watcher in the reconnect
loop (the watcher does not terminate). -/
theorem startWatcher_never_propagates :
    (∀ (connectResult openResult : Except String Unit) (e : String),
        startWatcher connectResult openResult ≠ Except.error e)
      ∧ (∀ connectResult openResult : Except String Unit,
          startWatcher connectResult openResult = Except.ok WatcherPhase.running
            ∨ startWatcher connectResult openResult = Except.ok WatcherPhase.reconnecting)
      ∧ (∀ (e : String) (openResult : Except String Unit),
          startWatcher (Except.error e) openResult = Except.ok WatcherPhase.reconnecting)
      ∧ (∀ e : String,
          startWatcher (Except.ok ()) (Except.error e) = Except.ok WatcherPhase.reconnecting)
      ∧ startWatcher (Except.ok ()) (Except.ok ()) = Except.ok WatcherPhase.running := by
  refine ⟨?_, ?_, ?_, ?_, rfl⟩
  · intro connectResult openResult e
    cases connectResult <;> cases openResult <;> simp [startWatcher]
  · intro connectResult openResult
    cases connectResult <;> cases openResult <;> simp [startWatcher]
  · intro e openResult
    rfl
  · intro e
    rfl

/-- The two awaited fallible steps of one loop iteration of the exists
handler, composed: download the message by id, then parse its content. -/
def fetchParse (download : Nat → Except String String)
    (parse : String → Except String String) (mailId : Nat) : Except String String :=
  match download mailId with
  | .error e => .error e
  | .ok content => parse content

/-- Embedding of the exists handler's loop over the resolved mail ids
(email-listener.ts), with the session's download and the mail parser as
fallible oracles.  The loop body has no try/catch: the first rejected await
aborts the handler.  The result is the list of emitted
`(mailId, parsedMail)` events and the error that stopped the loop, if any. -/
def processBatch (download : Nat → Except String String)
    (parse : String → Except String String) :
    List Nat → List (Nat × String) × Option String
  | [] => ([], none)
  | mailId :: rest =>
    match download mailId with
    | .error e => ([], some e)
    | .ok content =>
      match parse content with
      | .error e => ([], some e)
      | .ok parsedMail =>
        let result := processBatch download parse rest
        ((mailId, parsedMail) :: result.1, result.2)

/-- A failing download of id 1 stops the whole batch [1, 2]: nothing is
emitted and the error escapes the handler, although id 2 on its own would
download and parse fine - the remaining identifiers of the batch are not
processed, contrary to a skip-and-continue policy. -/
theorem processBatch_abort_counterexample :
    (processBatch
          (fun mailId => if mailId = 1 then Except.error "FetchError" else Except.ok "raw")
          (fun content => Except.ok content) [1, 2]).1 = []
      ∧ (processBatch
          (fun mailId => if mailId = 1 then Except.error "FetchError" else Except.ok "raw")
          (fun content => Except.ok content) [1, 2]).2 = some "FetchError"
      ∧ fetchParse
          (fun mailId => if mailId = 1 then Except.error "FetchError" else Except.ok "raw")
          (fun content => Except.ok content) 2 = Except.ok "raw" := by
  refine ⟨rfl, rfl, rfl⟩

/-- C6 (amended): a fetch or parse failure is not confined to its identifier:
the handler emits exactly the identifiers of the longest successful prefix of
the batch (each with its parsed content), the first failing identifier aborts
the loop, and the remaining identifiers of the batch are skipped; the handler
completes without error exactly when every identifier of the batch downloads
and parses successfully. -/
theorem processBatch_amended_spec :
    ∀ (download : Nat → Except String String) (parse : String → Except String String)
      (ids : List Nat),
      ((processBatch download parse ids).1.map Prod.fst
          = ids.takeWhile fun mailId => (fetchParse download parse mailId).isOk)
        ∧ ((processBatch download parse ids).2 = none
            ↔ ∀ mailId ∈ ids, (fetchParse download parse mailId).isOk = true)
        ∧ (∀ ev ∈ (processBatch download parse ids).1,
            fetchParse download parse ev.1 = Except.ok ev.2) := by
  intro download parse ids
  induction ids with
  | nil =>
    refine ⟨rfl, by simp [processBatch], by simp [processBatch]⟩
  | cons mailId rest ih =>
    obtain ⟨ih₁, ih₂, ih₃⟩ := ih
    rcases hd : download mailId with e | content
    · have hfp : fetchParse download parse mailId = Except.error e := by
        simp [fetchParse, hd]
      refine ⟨?_, ?_, ?_⟩
      · simp [processBatch, hd, List.takeWhile_cons, hfp, Except.isOk, Except.toBool]
      · simp [processBatch, hd, hfp, Except.isOk, Except.toBool]
      · simp [processBatch, hd]
    · have hfp : fetchParse download parse mailId = parse content := by
        simp [fetchParse, hd]
      rcases hp : parse content with e | parsedMail
      · refine ⟨?_, ?_, ?_⟩
        · simp [processBatch, hd, hp, List.takeWhile_cons, hfp, Except.isOk, Except.toBool]
        · simp [processBatch, hd, hp, hfp, Except.isOk, Except.toBool]
        · simp [processBatch, hd, hp]
      · have hok : (fetchParse download parse mailId).isOk = true := by
          rw [hfp, hp]
          rfl
        refine ⟨?_, ?_, ?_⟩
        · simp [processBatch, hd, hp, List.takeWhile_cons, hok, ih₁]
        · simp [processBatch, hd, hp, hok, ih₂]
        · intro ev hev
          simp only [processBatch, hd, hp, List.mem_cons] at hev
          rcases hev with rfl | hev
          · rw [hfp]
            exact hp
          · exact ih₃ ev hev

/-- The logical mailbox a watcher serves: the inbox of received mail or the
folder of sent mail. -/
inductive MailboxRole where
  | received
  | sent
deriving DecidableEq, Repr

/-- A "new message" event as delivered to the forwarding layer: the emitting
watcher's mailbox role and the identifier of the message. -/
structure NewMessageEvent where
  role : MailboxRole
  mailId : Nat
deriving DecidableEq, Repr

/-- Modelled from the spec: on count-changed the watcher resolves the new
identifiers and, for each of them, emits one "new message" event tagged with
the watcher's MailboxRole and the identifier (§4.2).  The email-listener
version emitting the role-tagged onMailReceived / onMailSent events is not
among the repository's files - only its caller, which subscribes one handler
per role, is - so the emission is taken from the spec's words. -/
def emitForBatch (role : MailboxRole) (data : ExistsData) : List NewMessageEvent :=
  (fromExistsDataToNewMails data).map fun mailId => { role := role, mailId := mailId }

/-- C7: for one count-changed notification the watcher emits, per resolved
identifier, exactly one event (count 1 for resolved ids, 0 for others), each
event is tagged with the watcher's role and its identifier, in order, and no
event of the other role is ever emitted - so the consumer can tell newly
received from newly sent messages apart. -/
theorem emitForBatch_spec :
    ∀ (role : MailboxRole) (data : ExistsData),
      (emitForBatch role data).map NewMessageEvent.mailId = fromExistsDataToNewMails data
        ∧ (∀ ev ∈ emitForBatch role data, ev.role = role)
        ∧ (∀ mailId : Nat,
            (emitForBatch role data).count { role := role, mailId := mailId }
              = if mailId ∈ fromExistsDataToNewMails data then 1 else 0)
        ∧ (∀ (r : MailboxRole) (mailId : Nat), r ≠ role →
            ({ role := r, mailId := mailId } : NewMessageEvent) ∉ emitForBatch role data) := by
  intro role data
  have hnodup : (fromExistsDataToNewMails data).Nodup := by
    rw [fromExistsDataToNewMails, newMailsLoop_eq_range' (data.count - data.prevCount)
      (data.prevCount + 1) data.count (by omega)]
    exact List.nodup_range' _ _
  have hrole : ∀ ev ∈ emitForBatch role data, ev.role = role := by
    intro ev hev
    simp only [emitForBatch, List.mem_map] at hev
    obtain ⟨mailId, _, rfl⟩ := hev
    rfl
  refine ⟨?_, hrole, ?_, ?_⟩
  · simp [emitForBatch, List.map_map, Function.comp_def, NewMessageEvent.mailId]
  · intro mailId
    have hinj : Function.Injective
        (fun mailId => ({ role := role, mailId := mailId } : NewMessageEvent)) := by
      intro a b hab
      exact congrArg NewMessageEvent.mailId hab
    rw [emitForBatch, List.count_map_of_injective _ _ hinj,
      List.count_eq_of_nodup hnodup]
  · intro r mailId hr hmem
    exact hr (hrole _ hmem)

/-- The session-level notifications one watcher receives over its life: a
count-changed ("exists") notification with its payload, or a closed / error
notification.  A permanently failing watcher is one whose stream is all
closed / error notifications. -/
inductive SessionEvent where
  | countChanged (data : ExistsData)
  | closed
  | errored
deriving DecidableEq, Repr

/-- The mail actions one watcher performs for one of its session events: a
count-changed notification runs the exists handler; closed and error
notifications emit no mail events (they only drive that watcher's own
reconnection). -/
def watcherActions : SessionEvent → List MailAction
  | .countChanged data => onExistsTrace data
  | .closed => []
  | .errored => []

/-- The whole action trace of one watcher over its own session events, in
order. -/
def watcherRun (events : List SessionEvent) : List MailAction :=
  events.flatMap watcherActions

/-- Embedding of `run` / `startImapClient` (the current index.ts): one
EmailListener with its own webhook clients is created per configured
instance, every instance is started (`Promise.all` over the per-instance
promises), and no state is shared between instances - so the group's
behaviour is the per-instance map of one watcher's behaviour over that
watcher's own session events. -/
def runGroup (sessionStreams : List (List SessionEvent)) : List (List MailAction) :=
  sessionStreams.map watcherRun

theorem runGroup_getD (streams : List (List SessionEvent)) :
    ∀ i : Nat, (runGroup streams).getD i [] = watcherRun (streams.getD i []) := by
  induction streams with
  | nil =>
    intro i
    rfl
  | cons s rest ih =>
    intro i
    cases i with
    | zero => rfl
    | succ i => exact ih i

/-- C8: every configured instance gets its own started watcher (one trace per
instance), and the watchers are independent: watcher i's delivered trace is a
function of its own session stream alone, so changing any other watcher's
stream - including making it fail permanently or never connect - leaves
watcher i's events and their order exactly unchanged. -/
theorem runGroup_isolation :
    ∀ streams : List (List SessionEvent),
      (runGroup streams).length = streams.length
        ∧ (∀ i : Nat, (runGroup streams).getD i [] = watcherRun (streams.getD i []))
        ∧ (∀ (streams₂ : List (List SessionEvent)) (i : Nat),
            streams.getD i [] = streams₂.getD i [] →
            (runGroup streams).getD i [] = (runGroup streams₂).getD i []) := by
  intro streams
  refine ⟨by simp [runGroup], runGroup_getD streams, ?_⟩
  intro streams₂ i h
  rw [runGroup_getD streams i, runGroup_getD streams₂ i, h]

/-- JavaScript `str.slice(0, stop)` on a string modelled as its character
list: a non-negative stop takes that many leading characters (clamped to the
length); a negative stop counts from the end of the string (clamped at 0). -/
def jsSliceTo (str : List Char) (stop : Int) : List Char :=
  if stop < 0 then str.take ((str.length : Int) + stop).toNat
  else str.take stop.toNat

/-- Embedding of `truncateString` (index.ts): return the string unchanged
when its length is within `maxLength`, else `str.slice(0, maxLength - 3)`
with "..." appended. -/
def truncateString (str : List Char) (maxLength : Nat) : List Char :=
  if str.length ≤ maxLength then str
  else jsSliceTo str ((maxLength : Int) - 3) ++ ['.', '.', '.']

/-- C9: for maxLength at least 3, truncateString returns the string unchanged
when it fits, and otherwise a string of length exactly maxLength whose first
maxLength - 3 characters are the string's prefix and whose last three
characters are "..."; for maxLength below 3 the length bound fails - the
result can be longer than maxLength. -/
theorem truncateString_spec :
    (∀ (s : List Char) (maxLength : Nat), 3 ≤ maxLength →
        (s.length ≤ maxLength → truncateString s maxLength = s)
          ∧ (maxLength < s.length →
              (truncateString s maxLength).length = maxLength
                ∧ (truncateString s maxLength).take (maxLength - 3) = s.take (maxLength - 3)
                ∧ (truncateString s maxLength).drop (maxLength - 3) = ['.', '.', '.']))
      ∧ (∃ (s : List Char) (maxLength : Nat), maxLength < 3
          ∧ maxLength < (truncateString s maxLength).length) := by
  constructor
  · intro s maxLength h3
    constructor
    · intro hle
      simp [truncateString, hle]
    · intro hlt
      have hnle : ¬ s.length ≤ maxLength := by omega
      have hstop : ¬ ((maxLength : Int) - 3 < 0) := by omega
      have htonat : ((maxLength : Int) - 3).toNat = maxLength - 3 := by omega
      have hbody : truncateString s maxLength
          = s.take (maxLength - 3) ++ ['.', '.', '.'] := by
        rw [truncateString, if_neg hnle, jsSliceTo, if_neg hstop, htonat]
      have htakelen : (s.take (maxLength - 3)).length = maxLength - 3 := by
        rw [List.length_take]
        omega
      refine ⟨?_, ?_, ?_⟩
      · rw [hbody, List.length_append, htakelen]
        simp
        omega
      · have htk : ∀ A : List Char, A.length = maxLength - 3 →
            (A ++ ['.', '.', '.']).take (maxLength - 3) = A := by
          intro A hA
          rw [← hA, List.take_left]
        rw [hbody, htk _ htakelen]
      · have hdr : ∀ A : List Char, A.length = maxLength - 3 →
            (A ++ ['.', '.', '.']).drop (maxLength - 3) = ['.', '.', '.'] := by
          intro A hA
          rw [← hA, List.drop_left]
        rw [hbody, hdr _ htakelen]
  · refine ⟨['a', 'b', 'c', 'd'], 2, by omega, ?_⟩
    simp [truncateString, jsSliceTo]

/-- One mail attachment as mailparser delivers it: an optional filename and
the raw content, modelled as its byte list (its length is the file size used
by the code). -/
structure Attachment where
  filename : Option String
  content : List Nat
deriving DecidableEq, Repr

/-- One file as handed to the Discord webhook client: the attached content
and the name it is sent under. -/
structure AttachmentPayload where
  attachment : List Nat
  name : String
deriving DecidableEq, Repr

/-- JavaScript `attachment.filename || 'attachment'`: a missing or empty
filename falls back to "attachment". -/
def fileNameOf (a : Attachment) : String :=
  match a.filename with
  | some s => if s.isEmpty then "attachment" else s
  | none => "attachment"

/-- The Discord file size limit constant of onMail (index.ts). -/
def DISCORD_FILE_SIZE_LIMIT : Nat := 10 * 1024 * 1024

/-- One line of the attachments embed field: the listed file name, its size
in bytes, and whether the file was attached (false renders the
"not attached - file too large" note). -/
structure AttachmentLine where
  fileName : String
  fileSize : Nat
  attached : Bool
deriving DecidableEq, Repr

/-- Embedding of the attachment loop of onMail (index.ts): every attachment
is listed with its name and size; one whose size exceeds the limit is only
listed as not attached, while one within the limit is also pushed, content
and file name, onto the files sent to the webhook. -/
def processAttachments : List Attachment → List AttachmentLine × List AttachmentPayload
  | [] => ([], [])
  | a :: rest =>
    let fileName := fileNameOf a
    let fileSize := a.content.length
    let result := processAttachments rest
    if DISCORD_FILE_SIZE_LIMIT < fileSize then
      ({ fileName := fileName, fileSize := fileSize, attached := false } :: result.1,
        result.2)
    else
      ({ fileName := fileName, fileSize := fileSize, attached := true } :: result.1,
        { attachment := a.content, name := fileName } :: result.2)

/-- C10: the limit is 10485760 bytes; the files sent to the webhook are
exactly the attachments of size at most the limit, in order, each with its
content and file name; and every attachment - the strictly larger ones
included - is listed with its name and size, marked attached exactly when it
is within the limit. -/
theorem processAttachments_limit_spec :
    DISCORD_FILE_SIZE_LIMIT = 10485760
      ∧ (∀ atts : List Attachment,
          (processAttachments atts).2
              = (atts.filter fun a => a.content.length ≤ DISCORD_FILE_SIZE_LIMIT).map
                  (fun a => { attachment := a.content, name := fileNameOf a })
            ∧ (processAttachments atts).1
              = atts.map (fun a =>
                  { fileName := fileNameOf a, fileSize := a.content.length,
                    attached := decide (a.content.length ≤ DISCORD_FILE_SIZE_LIMIT) })) := by
  refine ⟨rfl, ?_⟩
  intro atts
  induction atts with
  | nil => exact ⟨rfl, rfl⟩
  | cons a rest ih =>
    obtain ⟨ih₁, ih₂⟩ := ih
    by_cases h : DISCORD_FILE_SIZE_LIMIT < a.content.length
    · have hnle : ¬ a.content.length ≤ DISCORD_FILE_SIZE_LIMIT := by omega
      constructor
      · simp [processAttachments, h, List.filter_cons, hnle, ih₁]
      · simp [processAttachments, h, hnle, ih₂]
    · have hle : a.content.length ≤ DISCORD_FILE_SIZE_LIMIT := by omega
      constructor
      · simp [processAttachments, h, List.filter_cons, hle, ih₁]
      · simp [processAttachments, h, hle, ih₂]
